import Mathlib

/-!
# lnme: invoice lifecycle and ticket allocation

A shallow embedding of `src/ln/lnd.go` (the LND client wrapper) and of the HTTP
handlers registered in `main` of `src/lnme.go`.

Conventions of the embedding

* Bytes are natural numbers below 256, byte slices are `List Nat`.
* The payment node is a record of oracles (`LightningClient`), one field per RPC
  the code calls.  Every function that talks to the node also returns the list
  of RPCs it issued, in order, so that "no RPC is made" is a statement about
  that list.
* The file system is a map from path to file content
  (`FS = String → Option String`), directories included; `os.Stat`,
  `ioutil.ReadFile` and `os.Rename` are modelled on it.
* `log.Fatal` ends the process: handlers return an `Outcome`, either a response
  or `fatal`.
-/

namespace Lnme

/-! ## encoding/hex (Go standard library) -/

/-- The constant `hextable` of `encoding/hex`. -/
def hextable : String :=
  "0123456789abcdef"

/-- `hex.EncodeToString`: two lower-case digits per byte, `hextable[v >> 4]` and
`hextable[v & 0x0f]`. -/
def EncodeToString (src : List Nat) : String :=
  String.mk (src.flatMap fun b =>
    [hextable.data.getD (b / 16 % 16) '0', hextable.data.getD (b % 16) '0'])

/-- The reverse table of `encoding/hex`: the value of a hex digit (either case),
`none` for every other character. -/
def fromHexChar (c : Char) : Option Nat :=
  if '0' ≤ c ∧ c ≤ '9' then some (c.toNat - '0'.toNat)
  else if 'a' ≤ c ∧ c ≤ 'f' then some (c.toNat - 'a'.toNat + 10)
  else if 'A' ≤ c ∧ c ≤ 'F' then some (c.toNat - 'A'.toNat + 10)
  else none

/-- The loop of `hex.Decode`: pairs of digits become bytes; an invalid digit is
`InvalidByteError`, a trailing single character is `InvalidByteError` or
`ErrLength`. -/
def hexDecode : List Char → Except String (List Nat)
  | [] => .ok []
  | [p] =>
    match fromHexChar p with
    | none => .error "encoding/hex: invalid byte"
    | some _ => .error "encoding/hex: odd length hex string"
  | p :: q :: rest =>
    match fromHexChar p, fromHexChar q with
    | some a, some b =>
      match hexDecode rest with
      | .ok bs => .ok ((a * 16 + b) :: bs)
      | .error e => .error e
    | _, _ => .error "encoding/hex: invalid byte"

/-- `hex.DecodeString`. -/
def DecodeString (s : String) : Except String (List Nat) :=
  hexDecode s.data

/-! ## The file system -/

/-- Path ↦ content of the file at that path, `none` when nothing is there.  A
directory is an entry too; its content is not looked at. -/
abbrev FS := String → Option String

/-- `os.Stat(p)` returns a nil error. -/
def statOk (fs : FS) (p : String) : Bool :=
  (fs p).isSome

/-- `ioutil.ReadFile`. -/
def ReadFile (fs : FS) (p : String) : Except String String :=
  match fs p with
  | some content => .ok content
  | none => .error "open: no such file or directory"

/-- The directory that holds `p`: the path up to its last `/`. -/
def dirOf (p : String) : String :=
  String.mk ((p.data.reverse.dropWhile fun c => c != '/').drop 1).reverse

/-- `os.Rename(oldpath, newpath)`: fails when `oldpath` does not exist, and when
the directory of `newpath` does not exist (it has no entry and does not hold
`newpath` already); when `newpath` already exists and is not a directory,
Rename replaces it.  A directory that exists is taken to be writable. -/
def Rename (fs : FS) (oldpath newpath : String) : Except String FS :=
  match fs oldpath with
  | none => .error "rename: no such file or directory"
  | some content =>
    if statOk fs newpath || statOk fs (dirOf newpath) then
      .ok fun p => if p = newpath then some content else if p = oldpath then none else fs p
    else .error "rename: no such file or directory"

/-! ## src/ln/lnd.go -/

/-- The type `Invoice` of package `ln`. -/
structure Invoice where
  PaymentHash : String
  PaymentRequest : String
  Settled : Bool
  deriving DecidableEq, Repr

/-- The type `TkInvoice`: invoice type for ticket sale. -/
structure TkInvoice where
  PaymentHash : String
  PaymentRequest : String
  Settled : Bool
  Ticket : String
  deriving DecidableEq, Repr

/-- What the node answers to `AddInvoice` (the fields the code reads). -/
structure AddInvoiceResponse where
  RHash : List Nat
  PaymentRequest : String
  deriving DecidableEq, Repr

/-- What the node answers to `LookupInvoice` (the fields the code reads). -/
structure LookupResponse where
  RHash : List Nat
  PaymentRequest : String
  Settled : Bool
  deriving DecidableEq, Repr

/-- One RPC sent to the payment node, with the request fields the code fills. -/
inductive RPC where
  | addInvoice (Memo : String) (DescriptionHash : Option (List Nat)) (Value : Int)
  | lookupInvoice (RHash : List Nat) (RHashStr : String)
  deriving DecidableEq, Repr

/-- The payment node as seen through `lnrpc.LightningClient`. -/
structure LightningClient where
  AddInvoice : String → Option (List Nat) → Int → Except String AddInvoiceResponse
  LookupInvoice : List Nat → String → Except String LookupResponse

/-- `LNDclient.AddInvoice`: generates an invoice with the given price and memo. -/
def AddInvoice (c : LightningClient) (value : Int) (memo : String)
    (descriptionHash : Option (List Nat)) : Except String Invoice × List RPC :=
  let result : Invoice := { PaymentHash := "", PaymentRequest := "", Settled := false }
  match c.AddInvoice memo descriptionHash value with
  | .error err => (.error err, [RPC.addInvoice memo descriptionHash value])
  | .ok res =>
    (.ok { result with PaymentHash := EncodeToString res.RHash,
                       PaymentRequest := res.PaymentRequest },
     [RPC.addInvoice memo descriptionHash value])

/-- `LNDclient.GetInvoice`. -/
def GetInvoice (c : LightningClient) (paymentHashStr : String) :
    Except String Invoice × List RPC :=
  match DecodeString paymentHashStr with
  | .error err => (.error err, [])
  | .ok plainHash =>
    match c.LookupInvoice plainHash paymentHashStr with
    | .error err => (.error err, [RPC.lookupInvoice plainHash paymentHashStr])
    | .ok result =>
      (.ok { PaymentHash := EncodeToString result.RHash,
             PaymentRequest := result.PaymentRequest,
             Settled := result.Settled },
       [RPC.lookupInvoice plainHash paymentHashStr])

/-- `fmt.Sprintf("files/hashes/%s.txt", h)`. -/
def hashPath (h : String) : String :=
  "files/hashes/" ++ h ++ ".txt"

/-- `LNDclient.GetTkInvoice`: as `GetInvoice`, for tickets; the ticket file is
read only when the invoice is settled. -/
def GetTkInvoice (c : LightningClient) (fs : FS) (paymentHashStr : String) :
    Except String TkInvoice × List RPC :=
  match DecodeString paymentHashStr with
  | .error err => (.error err, [])
  | .ok plainHash =>
    match c.LookupInvoice plainHash paymentHashStr with
    | .error err => (.error err, [RPC.lookupInvoice plainHash paymentHashStr])
    | .ok result =>
      let invoice : TkInvoice :=
        { PaymentHash := EncodeToString result.RHash,
          PaymentRequest := result.PaymentRequest,
          Settled := result.Settled,
          Ticket := "" }
      let invoice :=
        if invoice.Settled = true then
          match ReadFile fs (hashPath invoice.PaymentHash) with
          | .error _ => { invoice with Ticket := "Not available." }
          | .ok content => { invoice with Ticket := content }
        else invoice
      (.ok invoice, [RPC.lookupInvoice plainHash paymentHashStr])

/-! ## IEEE-754 binary64, as far as the ticket price needs it -/

/-- A float64 value: not-a-number, an infinity, or the finite value
`± m * 2 ^ e` (every finite binary64 number has this form). -/
inductive F64 where
  | nan
  | inf (neg : Bool)
  | fin (neg : Bool) (m : Nat) (e : Int)
  deriving DecidableEq, Repr

/-- Binary logarithm by halving, with fuel. -/
def log2Fuel : Nat → Nat → Nat
  | 0, _ => 0
  | fuel + 1, n => if n < 2 then 0 else log2Fuel fuel (n / 2) + 1

/-- The integer part of the binary logarithm of `n` (0 for `n = 0`). -/
def ilog2 (n : Nat) : Nat :=
  log2Fuel n n

/-- The binary exponent of the positive rational `p / d`: the `k` with
`2 ^ k ≤ p / d < 2 ^ (k + 1)`. -/
def binExp (p d : Nat) : Int :=
  let k0 : Int := (ilog2 p : Int) - (ilog2 d : Int)
  if 0 ≤ k0 then
    if d * 2 ^ k0.toNat ≤ p then k0 else k0 - 1
  else
    if d ≤ p * 2 ^ (-k0).toNat then k0 else k0 - 1

/-- The integer nearest to `p / d`, ties to the even one. -/
def roundHalfEven (p d : Nat) : Nat :=
  let q := p / d
  let r := p % d
  if 2 * r < d then q
  else if d < 2 * r then q + 1
  else if q % 2 = 0 then q else q + 1

/-- The binary64 number nearest to the rational `± p / d` (`d > 0`), ties to
even: 53 significant bits, no spacing below `2 ^ (-1074)`, overflow to an
infinity from `2 ^ 1024` on. -/
def roundF64 (neg : Bool) (p d : Nat) : F64 :=
  if p = 0 then F64.fin neg 0 0
  else
    let j : Int := min (52 - binExp p d) 1074
    if 0 ≤ j then
      F64.fin neg (roundHalfEven (p * 2 ^ j.toNat) d) (-j)
    else
      let mant := roundHalfEven p (d * 2 ^ (-j).toNat)
      if 2 ^ 1024 ≤ mant * 2 ^ (-j).toNat then F64.inf neg else F64.fin neg mant (-j)

/-- The float64 quotient `a / x` of a positive integer constant `a` (exactly
representable) by `x`. -/
def divConst (a : Nat) : F64 → F64
  | .nan => .nan
  | .inf neg => .fin neg 0 0
  | .fin neg m e =>
    if m = 0 then .inf neg
    else if 0 ≤ e then roundF64 neg a (m * 2 ^ e.toNat)
    else roundF64 neg (a * 2 ^ (-e).toNat) m

/-- The conversion `int64(x)` of a float64: the fraction is discarded
(truncation towards zero).  `none` when the value does not fit an int64, where
the Go specification leaves the result to the implementation. -/
def toInt64 : F64 → Option Int
  | .nan => none
  | .inf _ => none
  | .fin neg m e =>
    let t : Nat := if 0 ≤ e then m * 2 ^ e.toNat else m / 2 ^ (-e).toNat
    let v : Int := if neg then -(t : Int) else (t : Int)
    if -(2 ^ 63 : Int) ≤ v ∧ v < 2 ^ 63 then some v else none

/-! ## strconv.ParseInt (Go standard library), base 10, 64 bits -/

/-- `strconv.ParseInt(s, 10, 64)`: an optional sign, then one or more decimal
digits; `none` stands for a non-nil error (syntax or range). -/
def ParseInt (s : String) : Option Int :=
  match s.data with
  | [] => none
  | c :: cs =>
    let neg : Bool := c = '-'
    let ds : List Char := if c = '+' ∨ c = '-' then cs else c :: cs
    if ds = [] ∨ ¬ ds.all Char.isDigit then none
    else
      let un : Nat := ds.foldl (fun a d => 10 * a + (d.toNat - '0'.toNat)) 0
      if neg then (if un ≤ 2 ^ 63 then some (-(un : Int)) else none)
      else (if un < 2 ^ 63 then some (un : Int) else none)

/-! ## src/lnme.go: responses -/

/-- Modelled from the spec: the struct declarations of package `lnurl` are not
among the sources.  `LNURLPayResponse1` with the fields the step-1 handler sets
(the descriptor: callback URL, min/max sendable millisatoshis, encoded
metadata). -/
structure LNURLPayResponse1 where
  Status : String
  Callback : String
  MinSendable : Nat
  MaxSendable : Nat
  EncodedMetadata : String
  CommentAllowed : Nat
  Tag : String
  deriving DecidableEq, Repr

/-- Modelled from the spec: `lnurl.LNURLPayResponse2` with the fields the step-2
handler sets (the payment request plus a static success action; `Routes` is
always empty). -/
structure LNURLPayResponse2 where
  Status : String
  PR : String
  Disposable : Bool
  SuccessActionTag : String
  SuccessActionMessage : String
  deriving DecidableEq, Repr

/-- Modelled from the spec: `lnurl.LNURLErrorResponse`, the protocol-level error
object. -/
structure LNURLErrorResponse where
  Status : String
  Reason : String
  deriving DecidableEq, Repr

/-- The value a handler hands to `c.JSON`; `errorMessage m` is the object
`{"message": m}` the framework's error handler writes after the `Recover`
middleware has caught a panic. -/
inductive Body where
  | text (s : String)
  | invoice (i : Invoice)
  | tkInvoice (i : TkInvoice)
  | payResponse1 (r : LNURLPayResponse1)
  | payResponse2 (r : LNURLPayResponse2)
  | lnurlError (r : LNURLErrorResponse)
  | errorMessage (message : String)
  deriving DecidableEq, Repr

/-- An HTTP response: `c.JSON(status, body)`. -/
structure Response where
  status : Nat
  body : Body
  deriving DecidableEq, Repr

/-- How a handler run ends: with a response, or with `log.Fatal`, which ends the
process without one. -/
inductive Outcome where
  | respond (r : Response)
  | fatal
  deriving DecidableEq, Repr

/-- What a handler run leaves behind: its outcome, the file system and the RPCs
sent to the node, in order. -/
structure Result where
  outcome : Outcome
  fs : FS
  rpcs : List RPC

/-- The request body of `POST /v1/invoices` (type `Invoice` of package `main`). -/
structure InvoiceRequest where
  Value : Int
  Memo : String
  deriving DecidableEq, Repr

/-! ## src/lnme.go: POST /v1/invoices, GET /v1/invoice, GET /v1/tkinvoice -/

/-- Handler of `POST /v1/invoices`; `bind` is what `c.Bind(i)` leaves in `i`, or
its error. -/
def postInvoices (lnClient : LightningClient) (fs : FS)
    (bind : Except String InvoiceRequest) : Result :=
  match bind with
  | .error _ => ⟨.respond ⟨400, .text "Bad request"⟩, fs, []⟩
  | .ok i =>
    match AddInvoice lnClient i.Value i.Memo none with
    | (.error _, rpcs) => ⟨.respond ⟨500, .text "Error adding invoice"⟩, fs, rpcs⟩
    | (.ok invoice, rpcs) => ⟨.respond ⟨200, .invoice invoice⟩, fs, rpcs⟩

/-- Handler of `GET /v1/invoice/:paymentHash`. -/
def getInvoice (lnClient : LightningClient) (fs : FS) (paymentHash : String) : Result :=
  match GetInvoice lnClient paymentHash with
  | (.error _, rpcs) => ⟨.respond ⟨500, .text "Error fetching invoice"⟩, fs, rpcs⟩
  | (.ok invoice, rpcs) => ⟨.respond ⟨200, .invoice invoice⟩, fs, rpcs⟩

/-- Handler of `GET /v1/tkinvoice/:paymentHash`. -/
def getTkInvoice (lnClient : LightningClient) (fs : FS) (paymentHash : String) : Result :=
  match GetTkInvoice lnClient fs paymentHash with
  | (.error _, rpcs) => ⟨.respond ⟨500, .text "Error fetching invoice"⟩, fs, rpcs⟩
  | (.ok invoice, rpcs) => ⟨.respond ⟨200, .tkInvoice invoice⟩, fs, rpcs⟩

/-! ## src/lnme.go: POST /v1/tkinvoices -/

/-- `fmt.Sprintf("files/tickets/ticket%d.txt", i)`. -/
def ticketPath (i : Nat) : String :=
  "files/tickets/ticket" ++ toString i ++ ".txt"

/-- The slot scan `for i := 1; i < 21; i++`, started at `i` with `fuel`
iterations left: `some curfile` at the first slot whose `os.Stat` succeeds
(`break`), `none` when slot 20 is reached without one (the handler returns
"No ticket available"), `some ""` when the loop condition ends the loop
(`avbTicket` keeps its initial value). -/
def scanFrom (fs : FS) : Nat → Nat → Option String
  | 0, _ => some ""
  | fuel + 1, i =>
    if statOk fs (ticketPath i) then some (ticketPath i)
    else if i = 20 then none
    else scanFrom fs fuel (i + 1)

/-- The scan of the handler: slots 1 to 20. -/
def scanTickets (fs : FS) : Option String :=
  scanFrom fs 20 1

/-- The amount of the ticket invoice: `int64(10 * 100000000 / iprice)`.  The
constant `10 * 100000000` is exact; `none` when the conversion is left to the
implementation. -/
def ticketValue (iprice : F64) : Option Int :=
  toInt64 (divConst (10 * 100000000) iprice)

/-- How `fetchBinance()` followed by `strconv.ParseFloat(coin1.Price, 32)` ends:
`fetchBinance` calls `log.Fatal` (the ticker's JSON does not parse), it panics
(`res` is nil after a failed request, or the ticker has fewer than 1097
entries), or `iprice` gets a float (the error of `ParseFloat` is ignored). -/
inductive PriceFetch where
  | exits
  | panics
  | price (iprice : F64)
  deriving DecidableEq, Repr

/-- What one run of the ticket-sale handler gets from outside the file system:
the result of `c.Bind`, the outcome of the price fetch, the payment node, and
the value the platform gives `int64(amount)` when `amount` does not fit. -/
structure TkEnv where
  bindOk : Bool
  iprice : PriceFetch
  lnClient : LightningClient
  int64Undefined : Int

/-- First part of the handler: the check for an available ticket. -/
def tkScan (fs : FS) : Except Response String :=
  match scanTickets fs with
  | none => .error ⟨500, .text "No ticket available"⟩
  | some avbTicket => .ok avbTicket

/-- Second part of the handler: bind the request, fetch the price, create the
invoice.  `.error none` is the end of the process inside `fetchBinance`; a
panic there is caught by the `Recover` middleware and answered with 500. -/
def tkCreateInvoice (env : TkEnv) : Except (Option Response) Invoice × List RPC :=
  if env.bindOk = false then (.error (some ⟨400, .text "Bad request"⟩), [])
  else
    match env.iprice with
    | .exits => (.error none, [])
    | .panics => (.error (some ⟨500, .errorMessage "Internal Server Error"⟩), [])
    | .price iprice =>
      let iValue : Int := (ticketValue iprice).getD env.int64Undefined
      match AddInvoice env.lnClient iValue "Ticket Sale" none with
      | (.error _, rpcs) => (.error (some ⟨500, .text "Error adding invoice"⟩), rpcs)
      | (.ok invoice, rpcs) => (.ok invoice, rpcs)

/-- Third part of the handler: move the ticket to the file named by the payment
hash; a failed rename is `log.Fatal`. -/
def tkBind (fs : FS) (avbTicket : String) (invoice : Invoice) : Outcome × FS :=
  match Rename fs avbTicket (hashPath invoice.PaymentHash) with
  | .error _ => (.fatal, fs)
  | .ok fs1 => (.respond ⟨200, .invoice invoice⟩, fs1)

/-- Handler of `POST /v1/tkinvoices`: create new invoice for tickets. -/
def postTkInvoices (env : TkEnv) (fs : FS) : Result :=
  match tkScan fs with
  | .error r => ⟨.respond r, fs, []⟩
  | .ok avbTicket =>
    match tkCreateInvoice env with
    | (.error (some r), rpcs) => ⟨.respond r, fs, rpcs⟩
    | (.error none, rpcs) => ⟨.fatal, fs, rpcs⟩
    | (.ok invoice, rpcs) =>
      let (out, fs1) := tkBind fs avbTicket invoice
      ⟨out, fs1, rpcs⟩

/-! ## src/lnme.go: GET /.well-known/lnurlp/:name -/

/-- The metadata string both steps build from the name and the host. -/
def lnurlMetadata (name host : String) : String :=
  let lightningAddress := name ++ "@" ++ host
  "[[\"text/identifier\", \"" ++ lightningAddress ++ "\"], [\"text/plain\", \"Sats for "
    ++ lightningAddress ++ "\"]]"

/-- The request as the LNURL-pay handler reads it. -/
structure LnurlRequest where
  name : String
  host : String
  scheme : String
  path : String
  amount : String

/-- Handler of `GET /.well-known/lnurlp/:name`.  `sha256` is `sha256.Sum256`
applied to the bytes of a string. -/
def lnurlp (sha256 : String → List Nat) (lnClient : LightningClient) (fs : FS)
    (req : LnurlRequest) : Result :=
  let lightningAddress := req.name ++ "@" ++ req.host
  let lnurlMetadata := lnurlMetadata req.name req.host
  if req.amount = "" then
    ⟨.respond ⟨200, .payResponse1
      { Status := "OK",
        Callback := req.scheme ++ "://" ++ req.host ++ req.path,
        MinSendable := 1000,
        MaxSendable := 100000000,
        EncodedMetadata := lnurlMetadata,
        CommentAllowed := 0,
        Tag := "payRequest" }⟩, fs, []⟩
  else
    match ParseInt req.amount with
    | none => ⟨.respond ⟨200, .lnurlError ⟨"ERROR", "Invalid Amount"⟩⟩, fs, []⟩
    | some msats =>
      if msats < 1000 then
        ⟨.respond ⟨200, .lnurlError ⟨"ERROR", "Invalid Amount"⟩⟩, fs, []⟩
      else
        let sats := msats.tdiv 1000
        let metadataHash := sha256 lnurlMetadata
        let (invoice, rpcs) := AddInvoice lnClient sats lightningAddress (some metadataHash)
        -- on an error `AddInvoice` returns the zero `Invoice`; `err` is not looked at
        let pr : String :=
          match invoice with
          | .ok inv => inv.PaymentRequest
          | .error _ => ""
        ⟨.respond ⟨200, .payResponse2
          { Status := "OK",
            PR := pr,
            Disposable := false,
            SuccessActionTag := "message",
            SuccessActionMessage := "Thanks, payment received!" }⟩, fs, rpcs⟩

/-! ## Ticket sales one after another, and interleaved -/

/-- The ticket slots present in the file system, in increasing order. -/
def presentSlots (fs : FS) : List Nat :=
  (List.range' 1 20).filter fun i => statOk fs (ticketPath i)

/-- The invoice the node creates for a request, when binding the request,
fetching the price and the `AddInvoice` RPC all succeed. -/
def invoiceOf (env : TkEnv) : Option Invoice :=
  match tkCreateInvoice env with
  | (.ok invoice, _) => some invoice
  | (.error _, _) => none

/-- Where a ticket-sale request stands between two of its steps: about to
`os.Stat` slot `i` in the scan loop; out of the loop with `avbTicket`; back
from `AddInvoice` with the invoice; about to write a response with `c.JSON`
(after a successful rename, or on one of the error paths); done. -/
inductive ReqState where
  | scanning (i : Nat)
  | scanned (avbTicket : String)
  | invoiced (avbTicket : String) (invoice : Invoice)
  | answering (r : Response)
  | finished (out : Outcome)
  deriving DecidableEq, Repr

/-- The process serving several ticket-sale requests at once: the shared file
system, the state of each request, and whether the process still runs. -/
structure Sys where
  fs : FS
  reqs : List ReqState
  alive : Bool

/-- One step of one request, whichever is next for it: one `os.Stat` of the scan
loop; the binding of the request, the price fetch and the `AddInvoice` RPC
(none of which touches the file system); the `os.Rename`; the `c.JSON` that
writes the response.  `log.Fatal` is a step to `finished fatal`. -/
def stepReq (env : TkEnv) (fs : FS) : ReqState → ReqState × FS
  | .scanning i =>
    if i < 21 then
      if statOk fs (ticketPath i) then (.scanned (ticketPath i), fs)
      else if i = 20 then (.answering ⟨500, .text "No ticket available"⟩, fs)
      else (.scanning (i + 1), fs)
    else (.scanned "", fs)
  | .scanned avbTicket =>
    match tkCreateInvoice env with
    | (.error (some r), _) => (.answering r, fs)
    | (.error none, _) => (.finished .fatal, fs)
    | (.ok invoice, _) => (.invoiced avbTicket invoice, fs)
  | .invoiced avbTicket invoice =>
    match Rename fs avbTicket (hashPath invoice.PaymentHash) with
    | .error _ => (.finished .fatal, fs)
    | .ok fs1 => (.answering ⟨200, .invoice invoice⟩, fs1)
  | .answering r => (.finished (.respond r), fs)
  | .finished out => (.finished out, fs)

/-- The scheduler lets request `i` take its next step.  Nothing moves once the
process has ended. -/
def step (envs : List TkEnv) (s : Sys) (i : Nat) : Sys :=
  if s.alive = false then s
  else
    match envs[i]?, s.reqs[i]? with
    | some env, some st =>
      let (st1, fs1) := stepReq env s.fs st
      { fs := fs1, reqs := s.reqs.set i st1, alive := decide (st1 ≠ .finished .fatal) }
    | _, _ => s

/-- Run a schedule: the list of request indices in the order they take steps. -/
def runSchedule (envs : List TkEnv) (schedule : List Nat) (s : Sys) : Sys :=
  schedule.foldl (step envs) s

/-- All requests accepted, each about to enter its scan loop at `i := 1`. -/
def initSys (envs : List TkEnv) (fs : FS) : Sys :=
  { fs := fs, reqs := envs.map fun _ => ReqState.scanning 1, alive := true }

/-! ## The spec's rounding, for comparison -/

/-- The integer nearest to `p / d` (halves upwards): `round` as the spec writes
it for the ticket amount. -/
def nearestInt (p d : Nat) : Nat :=
  (2 * p + d) / (2 * d)

/-- Numerator of the exact quotient `10 * 100000000 / (m * 2 ^ e)`. -/
def quotNum (e : Int) : Nat :=
  if 0 ≤ e then 10 * 100000000 else 10 * 100000000 * 2 ^ (-e).toNat

/-- Denominator of the exact quotient `10 * 100000000 / (m * 2 ^ e)`. -/
def quotDen (m : Nat) (e : Int) : Nat :=
  if 0 ≤ e then m * 2 ^ e.toNat else m

/-! ## Concrete environments used in the examples -/

/-- A node that answers every `AddInvoice` with the 32-byte hash `b b ... b` and
never finds an invoice. -/
def nodeWithHash (b : Nat) : LightningClient :=
  { AddInvoice := fun _ _ _ => .ok ⟨List.replicate 32 b, "lnbc1"⟩,
    LookupInvoice := fun _ _ => .error "not found" }

/-- A node whose every RPC fails. -/
def nodeDown : LightningClient :=
  { AddInvoice := fun _ _ _ => .error "unavailable",
    LookupInvoice := fun _ _ => .error "unavailable" }

/-- A node that knows one invoice, with the given settlement flag, under every hash. -/
def nodeWithInvoice (settled : Bool) : LightningClient :=
  { AddInvoice := fun _ _ _ => .error "unavailable",
    LookupInvoice := fun rhash _ => .ok ⟨rhash, "lnbc1", settled⟩ }

/-- A request environment with a price of 50000 and the given node. -/
def envWith (c : LightningClient) : TkEnv :=
  { bindOk := true, iprice := .price (.fin false 50000 0), lnClient := c, int64Undefined := 0 }

/-- The payment hash `nodeWithHash b` hands out, hex encoded. -/
def hashOf (b : Nat) : String :=
  EncodeToString (List.replicate 32 b)

/-- A file system with tickets in slots 1 and 2 and an empty directory
`files/hashes`. -/
def fsTwoTickets : FS := fun p =>
  if p = "files/tickets/ticket1.txt" then some "TICKET-ONE"
  else if p = "files/tickets/ticket2.txt" then some "TICKET-TWO"
  else if p = "files/hashes" then some ""
  else none

/-- Tickets in slots 1 and 2, and no directory `files/hashes`. -/
def fsNoHashesDir : FS := fun p =>
  if p = "files/tickets/ticket1.txt" then some "TICKET-ONE"
  else if p = "files/tickets/ticket2.txt" then some "TICKET-TWO"
  else none

/-- A file system with a ticket in slot 3 and, in the directory `files/hashes`,
a binding for `hashOf 7`. -/
def fsBound : FS := fun p =>
  if p = "files/tickets/ticket3.txt" then some "TICKET-THREE"
  else if p = hashPath (hashOf 7) then some "TICKET-SOLD-EARLIER"
  else if p = "files/hashes" then some ""
  else none

/-! ## Definitions used to state the claims -/

/-- The protocol-level error object of LNURL-pay step 2. -/
def invalidAmount : Outcome :=
  .respond ⟨200, .lnurlError ⟨"ERROR", "Invalid Amount"⟩⟩

theorem ticketPath_ne_hashPath (i : Nat) (h : String) : ticketPath i ≠ hashPath h := by
  intro e
  have := congrArg String.data e
  simp [ticketPath, hashPath, String.data_append] at this

theorem hashPath_injective (h1 h2 : String) (e : hashPath h1 = hashPath h2) : h1 = h2 := by
  have := congrArg String.data e
  simp [hashPath, String.data_append] at this
  exact String.ext this

theorem ticketPath_inj_slots :
    ∀ i ∈ List.range' 1 20, ∀ j ∈ List.range' 1 20, ticketPath i = ticketPath j → i = j := by
  decide

theorem ticketPath_inj {i j : Nat} (hi1 : 1 ≤ i) (hi : i ≤ 20) (hj1 : 1 ≤ j) (hj : j ≤ 20)
    (e : ticketPath i = ticketPath j) : i = j :=
  ticketPath_inj_slots i (List.mem_range'_1.mpr ⟨hi1, by omega⟩) j
    (List.mem_range'_1.mpr ⟨hj1, by omega⟩) e

/-! ## The slot scan -/

theorem statOk_eq_false {fs : FS} {p : String} : statOk fs p = false ↔ fs p = none := by
  simp [statOk]

theorem scanFrom_none (fs : FS) : ∀ fuel i, i + fuel = 20 →
    (scanFrom fs (fuel + 1) i = none ↔ ∀ j, i ≤ j → j ≤ 20 → fs (ticketPath j) = none) := by
  intro fuel
  induction fuel with
  | zero =>
    intro i hi
    have : i = 20 := by omega
    subst this
    simp only [scanFrom]
    cases hs : statOk fs (ticketPath 20)
    · simp
      intro j h1 h2
      have : j = 20 := by omega
      subst this
      exact statOk_eq_false.mp hs
    · simp
      refine ⟨20, le_refl _, le_refl _, ?_⟩
      intro hn
      rw [← statOk_eq_false, hs] at hn
      cases hn
  | succ n ih =>
    intro i hi
    rw [scanFrom]
    cases hs : statOk fs (ticketPath i)
    · have hne : i ≠ 20 := by omega
      simp only [hne, if_false, Bool.false_eq_true]
      rw [ih (i + 1) (by omega)]
      constructor
      · intro h j h1 h2
        rcases Nat.eq_or_lt_of_le h1 with e | l
        · subst e; exact statOk_eq_false.mp hs
        · exact h j l h2
      · intro h j h1 h2
        exact h j (by omega) h2
    · simp
      refine ⟨i, le_refl _, by omega, ?_⟩
      intro hn
      rw [← statOk_eq_false, hs] at hn
      cases hn

theorem scanFrom_some (fs : FS) : ∀ fuel i p, i + fuel = 20 → scanFrom fs (fuel + 1) i = some p →
    ∃ j, i ≤ j ∧ j ≤ 20 ∧ p = ticketPath j ∧ statOk fs (ticketPath j) = true ∧
      ∀ k, i ≤ k → k < j → fs (ticketPath k) = none := by
  intro fuel
  induction fuel with
  | zero =>
    intro i p hi h
    have : i = 20 := by omega
    subst this
    simp only [scanFrom] at h
    cases hs : statOk fs (ticketPath 20)
    · simp [hs] at h
    · simp [hs] at h
      exact ⟨20, le_refl _, le_refl _, h.symm, hs, fun k h1 h2 => by omega⟩
  | succ n ih =>
    intro i p hi h
    rw [scanFrom] at h
    cases hs : statOk fs (ticketPath i)
    · have hne : i ≠ 20 := by omega
      simp only [hs, hne, if_false, Bool.false_eq_true] at h
      obtain ⟨j, h1, h2, h3, h4, h5⟩ := ih (i + 1) p (by omega) h
      refine ⟨j, by omega, h2, h3, h4, ?_⟩
      intro k hk1 hk2
      rcases Nat.eq_or_lt_of_le hk1 with e | l
      · subst e; exact statOk_eq_false.mp hs
      · exact h5 k l hk2
    · simp [hs] at h
      exact ⟨i, le_refl _, by omega, h.symm, hs, fun k h1 h2 => by omega⟩

theorem scanTickets_none (fs : FS) :
    scanTickets fs = none ↔ ∀ j, 1 ≤ j → j ≤ 20 → fs (ticketPath j) = none :=
  scanFrom_none fs 19 1 rfl

theorem scanTickets_some (fs : FS) (p : String) (h : scanTickets fs = some p) :
    ∃ j, 1 ≤ j ∧ j ≤ 20 ∧ p = ticketPath j ∧ statOk fs (ticketPath j) = true ∧
      ∀ k, 1 ≤ k → k < j → fs (ticketPath k) = none :=
  scanFrom_some fs 19 1 p rfl h

/-! ## Hex decoding -/

theorem hexDecode_error_iff : ∀ (n : Nat) (cs : List Char), cs.length ≤ n →
    ((∃ e, hexDecode cs = .error e) ↔ (cs.length % 2 = 1 ∨ ∃ c ∈ cs, fromHexChar c = none)) := by
  intro n
  induction n using Nat.strong_induction_on with
  | _ n ih =>
    intro cs hn
    match cs with
    | [] => simp [hexDecode]
    | [p] =>
      cases hp : fromHexChar p <;> simp [hexDecode, hp]
    | p :: q :: rest =>
      have ih1 := ih rest.length (by simp at hn; omega) rest (le_refl _)
      have hlen : (p :: q :: rest).length % 2 = rest.length % 2 := by
        simp only [List.length_cons]
        omega
      rw [hlen]
      cases hp : fromHexChar p with
      | none => simp [hexDecode, hp]
      | some a =>
        cases hq : fromHexChar q with
        | none => simp [hexDecode, hp, hq]
        | some b =>
          cases hr : hexDecode rest with
          | error e =>
            have h2 := ih1.mp ⟨e, hr⟩
            simp only [hexDecode, hp, hq, hr]
            constructor
            · intro _
              rcases h2 with h | ⟨c, hc, hcn⟩
              · exact Or.inl h
              · exact Or.inr ⟨c, by simp [hc], hcn⟩
            · intro _
              exact ⟨e, rfl⟩
          | ok bs =>
            have h2 : ¬ (rest.length % 2 = 1 ∨ ∃ c ∈ rest, fromHexChar c = none) := by
              intro h
              obtain ⟨e, he⟩ := ih1.mpr h
              rw [hr] at he
              cases he
            simp only [hexDecode, hp, hq, hr]
            constructor
            · intro ⟨e, he⟩
              cases he
            · intro h
              exfalso
              apply h2
              rcases h with h | ⟨c, hc, hcn⟩
              · exact Or.inl h
              · simp only [List.mem_cons] at hc
                rcases hc with rfl | rfl | hc
                · rw [hp] at hcn; cases hcn
                · rw [hq] at hcn; cases hcn
                · exact Or.inr ⟨c, hc, hcn⟩

/-- A string is refused by `hex.DecodeString` exactly when its length is odd or
one of its characters is not a hex digit. -/
theorem DecodeString_error_iff (s : String) :
    (∃ e, DecodeString s = .error e) ↔
      (s.data.length % 2 = 1 ∨ ∃ c ∈ s.data, fromHexChar c = none) :=
  hexDecode_error_iff s.data.length s.data (le_refl _)

/-! ## Claims on `src/ln/lnd.go` -/

/-- C1: whatever the payment hash and the file system (a binding file
`files/hashes/<hash>.txt` may exist), when the hash decodes, the node's lookup
succeeds and reports `settled = false`, `GetTkInvoice` returns a `TkInvoice`
whose `Ticket` is the empty string, after exactly that one lookup. -/
theorem getTkInvoice_unsettled_ticket_empty (c : LightningClient) (fs : FS)
    (paymentHashStr : String) (plainHash : List Nat) (result : LookupResponse)
    (hdec : DecodeString paymentHashStr = .ok plainHash)
    (hlook : c.LookupInvoice plainHash paymentHashStr = .ok result)
    (hsettled : result.Settled = false) :
    ∃ inv : TkInvoice, (GetTkInvoice c fs paymentHashStr).1 = .ok inv ∧ inv.Ticket = "" ∧
      inv.Settled = false ∧ inv.PaymentHash = EncodeToString result.RHash ∧
      (GetTkInvoice c fs paymentHashStr).2 = [RPC.lookupInvoice plainHash paymentHashStr] := by
  simp [GetTkInvoice, hdec, hlook, hsettled]

/-- C1, at a concrete input: the binding file of the hash exists and holds a
ticket, the invoice is unsettled, the ticket stays hidden. -/
theorem getTkInvoice_unsettled_ticket_empty_witness :
    fsBound (hashPath (hashOf 7)) = some "TICKET-SOLD-EARLIER" ∧
    ∃ inv : TkInvoice, (GetTkInvoice (nodeWithInvoice false) fsBound (hashOf 7)).1 = .ok inv ∧
      inv.Ticket = "" ∧ inv.Settled = false ∧
      inv.PaymentHash = EncodeToString (List.replicate 32 7) ∧
      (GetTkInvoice (nodeWithInvoice false) fsBound (hashOf 7)).2 =
        [RPC.lookupInvoice (List.replicate 32 7) (hashOf 7)] :=
  ⟨by decide,
   getTkInvoice_unsettled_ticket_empty (nodeWithInvoice false) fsBound (hashOf 7)
    (List.replicate 32 7) ⟨List.replicate 32 7, "lnbc1", false⟩ (by rfl) (by rfl) (by rfl)⟩

/-- C9, as the claim states it, fails: `"ab"` is valid hex of one byte, not 32,
and both `GetInvoice` and `GetTkInvoice` send it to the node in a
`LookupInvoice` RPC; with a node that answers, neither returns an error. -/
theorem short_hash_reaches_node :
    DecodeString "ab" = .ok [171] ∧ [171].length ≠ 32 ∧
    GetInvoice (nodeWithInvoice false) "ab" =
      (.ok ⟨"ab", "lnbc1", false⟩, [RPC.lookupInvoice [171] "ab"]) ∧
    GetTkInvoice (nodeWithInvoice false) fsBound "ab" =
      (.ok ⟨"ab", "lnbc1", false, ""⟩, [RPC.lookupInvoice [171] "ab"]) := by
  refine ⟨by rfl, by decide, by rfl, by rfl⟩

/-- C9, amended: for every payment-hash string that is not valid hex (odd
length, or a character that is no hex digit), `GetInvoice` and `GetTkInvoice`
return an error without any RPC to the node; a string that is valid hex, of
whatever length, is looked up at the node with exactly one `LookupInvoice`
RPC carrying the decoded bytes, and the node's answer decides the result: the
node's error is returned as the error, the node's invoice is returned with its
hash in hex, its payment request and its settled flag (and, by `GetTkInvoice`,
with the ticket: empty when unsettled, else the content of the binding file
or "Not available."). -/
theorem invalid_hex_no_rpc (c : LightningClient) (fs : FS) (s : String) :
    ((s.data.length % 2 = 1 ∨ ∃ ch ∈ s.data, fromHexChar ch = none) →
      (∃ e, GetInvoice c s = (.error e, [])) ∧ (∃ e, GetTkInvoice c fs s = (.error e, []))) ∧
    (∀ bs, DecodeString s = .ok bs →
      GetInvoice c s =
        (match c.LookupInvoice bs s with
          | .error err => .error err
          | .ok result =>
            .ok ⟨EncodeToString result.RHash, result.PaymentRequest, result.Settled⟩,
         [RPC.lookupInvoice bs s]) ∧
      GetTkInvoice c fs s =
        (match c.LookupInvoice bs s with
          | .error err => .error err
          | .ok result =>
            .ok ⟨EncodeToString result.RHash, result.PaymentRequest, result.Settled,
              if result.Settled = true then
                (fs (hashPath (EncodeToString result.RHash))).getD "Not available."
              else ""⟩,
         [RPC.lookupInvoice bs s])) := by
  constructor
  · intro h
    obtain ⟨e, he⟩ := (DecodeString_error_iff s).mpr h
    exact ⟨⟨e, by simp [GetInvoice, he]⟩, ⟨e, by simp [GetTkInvoice, he]⟩⟩
  · intro bs hbs
    constructor
    · simp only [GetInvoice, hbs]
      cases c.LookupInvoice bs s <;> rfl
    · simp only [GetTkInvoice, hbs]
      cases hl : c.LookupInvoice bs s with
      | error e => rfl
      | ok result =>
        cases hset : result.Settled
        · simp [hset]
        · cases hfile : fs (hashPath (EncodeToString result.RHash)) <;>
            simp [hset, ReadFile, hfile]

/-- C9 amended, at concrete inputs: `"zz"` is refused before any RPC; `"ab"` is
looked up, and the result is the node's: its error when it is down, its
invoice when it has one. -/
theorem invalid_hex_no_rpc_witness :
    ((∃ e, GetInvoice nodeDown "zz" = (.error e, [])) ∧
      (∃ e, GetTkInvoice nodeDown fsBound "zz" = (.error e, []))) ∧
    (GetInvoice nodeDown "ab" = (.error "unavailable", [RPC.lookupInvoice [171] "ab"]) ∧
      GetTkInvoice nodeDown fsBound "ab"
        = (.error "unavailable", [RPC.lookupInvoice [171] "ab"])) ∧
    (GetInvoice (nodeWithInvoice true) "ab"
        = (.ok ⟨"ab", "lnbc1", true⟩, [RPC.lookupInvoice [171] "ab"]) ∧
      GetTkInvoice (nodeWithInvoice true) fsBound "ab"
        = (.ok ⟨"ab", "lnbc1", true, "Not available."⟩, [RPC.lookupInvoice [171] "ab"])) :=
  ⟨(invalid_hex_no_rpc nodeDown fsBound "zz").1 (Or.inr ⟨'z', by decide, by decide⟩),
   (invalid_hex_no_rpc nodeDown fsBound "ab").2 [171] (by rfl),
   (invalid_hex_no_rpc (nodeWithInvoice true) fsBound "ab").2 [171] (by rfl)⟩

/-! ## Claims on the LNURL-pay handler -/

theorem ParseInt_empty : ParseInt "" = none := by
  rfl

/-- C6: for every LNURL-pay request whose amount parameter is non-empty and
either does not parse as a base-10 64-bit integer or parses to a value below
1000, the handler answers HTTP 200 with the error object
`{status: "ERROR", reason: "Invalid Amount"}`, sends no RPC to the node and
leaves the file system alone; for every amount that parses to a value of at
least 1000 the answer is not that error object. -/
theorem lnurlp_amount_check (sha256 : String → List Nat) (c : LightningClient) (fs : FS)
    (req : LnurlRequest) :
    (req.amount ≠ "" →
      (ParseInt req.amount = none ∨ ∃ m, ParseInt req.amount = some m ∧ m < 1000) →
      (lnurlp sha256 c fs req).outcome = invalidAmount ∧ (lnurlp sha256 c fs req).rpcs = [] ∧
        (lnurlp sha256 c fs req).fs = fs) ∧
    (∀ m, ParseInt req.amount = some m → 1000 ≤ m →
      (lnurlp sha256 c fs req).outcome ≠ invalidAmount) := by
  constructor
  · intro hne hbad
    rcases hbad with hnone | ⟨m, hm, hlt⟩
    · simp [lnurlp, hne, hnone, invalidAmount]
    · simp [lnurlp, hne, hm, hlt, invalidAmount]
  · intro m hm hge
    have hne : req.amount ≠ "" := by
      intro h
      rw [h, ParseInt_empty] at hm
      cases hm
    have hnlt : ¬ m < 1000 := not_lt.mpr hge
    simp [lnurlp, hne, hm, hnlt, invalidAmount]

/-- C6, at concrete inputs: `amount=500` and `amount=12a` get the error object
and no RPC; `amount=1000` does not get it. -/
theorem lnurlp_amount_check_witness :
    ((lnurlp (fun _ => []) (nodeWithHash 1) fsBound ⟨"alice", "host", "https", "/p", "500"⟩).outcome
        = invalidAmount ∧
      (lnurlp (fun _ => []) (nodeWithHash 1) fsBound ⟨"alice", "host", "https", "/p", "500"⟩).rpcs
        = [] ∧
      (lnurlp (fun _ => []) (nodeWithHash 1) fsBound ⟨"alice", "host", "https", "/p", "500"⟩).fs
        = fsBound) ∧
    ((lnurlp (fun _ => []) (nodeWithHash 1) fsBound ⟨"alice", "host", "https", "/p", "12a"⟩).outcome
        = invalidAmount ∧
      (lnurlp (fun _ => []) (nodeWithHash 1) fsBound ⟨"alice", "host", "https", "/p", "12a"⟩).rpcs
        = [] ∧
      (lnurlp (fun _ => []) (nodeWithHash 1) fsBound ⟨"alice", "host", "https", "/p", "12a"⟩).fs
        = fsBound) ∧
    (lnurlp (fun _ => []) (nodeWithHash 1) fsBound ⟨"alice", "host", "https", "/p", "1000"⟩).outcome
        ≠ invalidAmount :=
  ⟨(lnurlp_amount_check (fun _ => []) (nodeWithHash 1) fsBound
      ⟨"alice", "host", "https", "/p", "500"⟩).1 (by decide) (Or.inr ⟨500, by decide, by decide⟩),
   (lnurlp_amount_check (fun _ => []) (nodeWithHash 1) fsBound
      ⟨"alice", "host", "https", "/p", "12a"⟩).1 (by decide) (Or.inl (by decide)),
   (lnurlp_amount_check (fun _ => []) (nodeWithHash 1) fsBound
      ⟨"alice", "host", "https", "/p", "1000"⟩).2 1000 (by decide) (by decide)⟩

/-- C7: for every name, host and amount parameter that parses to an integer
`m ≥ 1000`, step 2 sends exactly one `AddInvoice` RPC: its value is `m / 1000`
truncated (the `v` with `1000 * v ≤ m < 1000 * v + 1000`), its memo is
`name@host`, and its description hash is SHA-256 of exactly the string that
step 1, for the same name and host, returns as `EncodedMetadata`. -/
theorem lnurlp_step2_invoice (sha256 : String → List Nat) (c : LightningClient) (fs : FS)
    (name host scheme path amount : String) (m : Int)
    (hparse : ParseInt amount = some m) (hm : 1000 ≤ m) :
    ∃ r1 : LNURLPayResponse1,
      (lnurlp sha256 c fs ⟨name, host, scheme, path, ""⟩).outcome
        = .respond ⟨200, .payResponse1 r1⟩ ∧
      (lnurlp sha256 c fs ⟨name, host, scheme, path, amount⟩).rpcs
        = [RPC.addInvoice (name ++ "@" ++ host) (some (sha256 r1.EncodedMetadata)) (m / 1000)] ∧
      1000 * (m / 1000) ≤ m ∧ m < 1000 * (m / 1000) + 1000 := by
  have hne : amount ≠ "" := by
    intro h
    rw [h, ParseInt_empty] at hparse
    cases hparse
  have hnlt : ¬ m < 1000 := not_lt.mpr hm
  have hdiv : m.tdiv 1000 = m / 1000 := by
    exact Int.tdiv_eq_ediv (by omega) (by omega)
  refine ⟨_, by simp [lnurlp]; rfl, ?_, by omega, by omega⟩
  simp [lnurlp, hne, hparse, hnlt, AddInvoice, hdiv]
  cases c.AddInvoice (name ++ "@" ++ host) (some (sha256 (lnurlMetadata name host)))
    (m / 1000) <;> rfl

/-- C7, at a concrete input: `amount=2000` for `alice@host` asks the node for
2 sats. -/
theorem lnurlp_step2_invoice_witness :
    ParseInt "2000" = some 2000 ∧ (2000 : Int) / 1000 = 2 ∧
    ∃ r1 : LNURLPayResponse1,
      (lnurlp (fun s => s.data.map Char.toNat) (nodeWithHash 1) fsBound
        ⟨"alice", "host", "https", "/p", ""⟩).outcome = .respond ⟨200, .payResponse1 r1⟩ ∧
      (lnurlp (fun s => s.data.map Char.toNat) (nodeWithHash 1) fsBound
        ⟨"alice", "host", "https", "/p", "2000"⟩).rpcs
        = [RPC.addInvoice ("alice" ++ "@" ++ "host")
            (some ((fun s => s.data.map Char.toNat) r1.EncodedMetadata)) ((2000 : Int) / 1000)] ∧
      1000 * ((2000 : Int) / 1000) ≤ 2000 ∧ (2000 : Int) < 1000 * ((2000 : Int) / 1000) + 1000 :=
  ⟨by decide, by decide,
   lnurlp_step2_invoice (fun s => s.data.map Char.toNat) (nodeWithHash 1) fsBound
    "alice" "host" "https" "/p" "2000" 2000 (by decide) (by decide)⟩

/-- C10, where the code departs from the claim: when the `AddInvoice` RPC of
LNURL-pay step 2 fails, the handler still answers HTTP 200 with status "OK",
an empty payment request and the success action. -/
theorem lnurlp_step2_ok_on_node_error (sha256 : String → List Nat) (c : LightningClient)
    (fs : FS) (req : LnurlRequest) (m : Int) (e : String)
    (hparse : ParseInt req.amount = some m) (hm : 1000 ≤ m)
    (herr : c.AddInvoice (req.name ++ "@" ++ req.host)
      (some (sha256 (lnurlMetadata req.name req.host))) (m.tdiv 1000) = .error e) :
    (lnurlp sha256 c fs req).outcome =
      .respond ⟨200, .payResponse2 ⟨"OK", "", false, "message", "Thanks, payment received!"⟩⟩ := by
  have hne : req.amount ≠ "" := by
    intro h
    rw [h, ParseInt_empty] at hparse
    cases hparse
  have hnlt : ¬ m < 1000 := not_lt.mpr hm
  simp [lnurlp, hne, hparse, hnlt, AddInvoice, herr]

/-- C10, the failing input: `GET /.well-known/lnurlp/alice?amount=2000` while
the node is down. -/
theorem lnurlp_step2_ok_on_node_error_witness :
    (lnurlp (fun _ => []) nodeDown fsBound
      ⟨"alice", "host", "https", "/.well-known/lnurlp/alice", "2000"⟩).outcome =
      .respond ⟨200, .payResponse2 ⟨"OK", "", false, "message", "Thanks, payment received!"⟩⟩ :=
  lnurlp_step2_ok_on_node_error (fun _ => []) nodeDown fsBound
    ⟨"alice", "host", "https", "/.well-known/lnurlp/alice", "2000"⟩ 2000 "unavailable"
    (by decide) (by decide) (by rfl)

/-! ## Claims on the ticket-sale handler -/

theorem scanTickets_eq_of_lowest (fs : FS) (i : Nat) (hi1 : 1 ≤ i) (hi : i ≤ 20)
    (hpres : fs (ticketPath i) ≠ none)
    (hlow : ∀ k, 1 ≤ k → k < i → fs (ticketPath k) = none) :
    scanTickets fs = some (ticketPath i) := by
  cases h : scanTickets fs with
  | none => exact absurd ((scanTickets_none fs).mp h i hi1 hi) hpres
  | some p =>
    obtain ⟨j, hj1, hj, hp, hs, hbelow⟩ := scanTickets_some fs p h
    have hjpres : fs (ticketPath j) ≠ none := by
      intro hn
      rw [← statOk_eq_false, hs] at hn
      cases hn
    rcases Nat.lt_trichotomy j i with hlt | heq | hgt
    · exact absurd (hlow j hj1 hlt) hjpres
    · rw [hp, heq]
    · exact absurd (hbelow i hi1 hgt) hpres

theorem invoiceOf_eq_some (env : TkEnv) (inv : Invoice) :
    invoiceOf env = some inv ↔ ∃ rpcs, tkCreateInvoice env = (.ok inv, rpcs) := by
  unfold invoiceOf
  rcases h : tkCreateInvoice env with ⟨_ | inv1, rpcs⟩
  · simp
  · simp

/-- A run of the handler that gets past the scan and the invoice creation, with
a place for the binding file, ends with the rename of the scanned slot. -/
theorem postTkInvoices_sale (env : TkEnv) (fs : FS) (p content : String) (inv : Invoice)
    (hscan : scanTickets fs = some p) (hfile : fs p = some content)
    (hinv : invoiceOf env = some inv)
    (hdir : statOk fs (hashPath inv.PaymentHash) = true ∨
      statOk fs (dirOf (hashPath inv.PaymentHash)) = true) :
    (postTkInvoices env fs).outcome = .respond ⟨200, .invoice inv⟩ ∧
    (postTkInvoices env fs).fs = fun q =>
      if q = hashPath inv.PaymentHash then some content else if q = p then none else fs q := by
  obtain ⟨rpcs, hc⟩ := (invoiceOf_eq_some env inv).mp hinv
  have hd : (statOk fs (hashPath inv.PaymentHash) ||
      statOk fs (dirOf (hashPath inv.PaymentHash))) = true := by
    rcases hdir with h | h <;> simp [h]
  simp [postTkInvoices, tkScan, hscan, hc, tkBind, Rename, hfile, hd]

/-- The error responses of the invoice-creation part. -/
theorem tkCreateInvoice_error (env : TkEnv) (r : Response) (rpcs : List RPC)
    (h : tkCreateInvoice env = (.error (some r), rpcs)) :
    r = ⟨400, .text "Bad request"⟩ ∨ r = ⟨500, .errorMessage "Internal Server Error"⟩ ∨
      r = ⟨500, .text "Error adding invoice"⟩ := by
  unfold tkCreateInvoice at h
  cases hb : env.bindOk
  · simp [hb] at h
    exact Or.inl h.1.symm
  · cases hp : env.iprice with
    | exits => simp [hb, hp] at h
    | panics =>
      simp [hb, hp] at h
      exact Or.inr (Or.inl h.1.symm)
    | price iprice =>
      simp only [hb, hp] at h
      rcases ha : AddInvoice env.lnClient ((ticketValue iprice).getD env.int64Undefined)
        "Ticket Sale" none with ⟨_ | _, _⟩
      · simp [ha] at h
        exact Or.inr (Or.inr h.1.symm)
      · simp [ha] at h

/-- Every run of the handler that answers 200 with an invoice went through the
scan, the invoice creation and the rename. -/
theorem postTkInvoices_200 (env : TkEnv) (fs : FS) (inv : Invoice)
    (h : (postTkInvoices env fs).outcome = .respond ⟨200, .invoice inv⟩) :
    ∃ p content, scanTickets fs = some p ∧ fs p = some content ∧ invoiceOf env = some inv ∧
      (statOk fs (hashPath inv.PaymentHash) = true ∨
        statOk fs (dirOf (hashPath inv.PaymentHash)) = true) := by
  unfold postTkInvoices tkScan at h
  cases hscan : scanTickets fs with
  | none => simp [hscan] at h
  | some p =>
    rcases hc : tkCreateInvoice env with ⟨(_ | r) | inv1, rpcs⟩
    · simp [hscan, hc] at h
    · simp only [hscan, hc] at h
      have hr : r = ⟨200, .invoice inv⟩ := by
        injection h
      rcases tkCreateInvoice_error env r rpcs hc with h1 | h1 | h1 <;>
        · rw [hr] at h1
          have := congrArg Response.status h1
          simp at this
    · cases hfile : fs p with
      | none => simp [hscan, hc, tkBind, Rename, hfile] at h
      | some content =>
        cases hd : (statOk fs (hashPath inv1.PaymentHash) ||
          statOk fs (dirOf (hashPath inv1.PaymentHash)))
        · simp [hscan, hc, tkBind, Rename, hfile, hd] at h
        · simp [hscan, hc, tkBind, Rename, hfile, hd] at h
          subst h
          refine ⟨p, content, rfl, hfile, ?_, ?_⟩
          · rw [invoiceOf_eq_some]
            exact ⟨rpcs, hc⟩
          · simpa [Bool.or_eq_true] using hd

/-- C5: `POST /v1/tkinvoices` answers status 500 with body "No ticket available"
if and only if none of the 20 slots `files/tickets/ticket1.txt` ..
`ticket20.txt` is present; in that case the handler returns that response (it
does not end the process), sends no RPC to the node and leaves the file system
as it was. -/
theorem postTkInvoices_sold_out_iff (env : TkEnv) (fs : FS) :
    ((postTkInvoices env fs).outcome = .respond ⟨500, .text "No ticket available"⟩ ↔
      ∀ i, 1 ≤ i → i ≤ 20 → fs (ticketPath i) = none) ∧
    ((∀ i, 1 ≤ i → i ≤ 20 → fs (ticketPath i) = none) →
      (postTkInvoices env fs).rpcs = [] ∧ (postTkInvoices env fs).fs = fs) := by
  rw [← scanTickets_none]
  cases hscan : scanTickets fs with
  | none => simp [postTkInvoices, tkScan, hscan]
  | some p =>
    simp only [reduceCtorEq, false_implies, and_true, iff_false]
    unfold postTkInvoices tkScan
    simp only [hscan]
    rcases hc : tkCreateInvoice env with ⟨(_ | r) | inv1, rpcs⟩
    · simp
    · rcases tkCreateInvoice_error env r rpcs hc with h1 | h1 | h1 <;> simp [h1]
    · simp only [tkBind]
      cases Rename fs p (hashPath inv1.PaymentHash) <;> simp

/-- C5, at concrete inputs: with no ticket file the answer is "No ticket
available" and nothing else happens; with two ticket files it is not. -/
theorem postTkInvoices_sold_out_iff_witness :
    ((postTkInvoices (envWith (nodeWithHash 1)) (fun _ => none)).outcome
        = .respond ⟨500, .text "No ticket available"⟩ ∧
      (postTkInvoices (envWith (nodeWithHash 1)) (fun _ => none)).rpcs = [] ∧
      (postTkInvoices (envWith (nodeWithHash 1)) (fun _ => none)).fs = fun _ => none) ∧
    (postTkInvoices (envWith (nodeWithHash 1)) fsTwoTickets).outcome
        ≠ .respond ⟨500, .text "No ticket available"⟩ :=
  ⟨⟨(postTkInvoices_sold_out_iff (envWith (nodeWithHash 1)) (fun _ => none)).1.mpr
      (fun _ _ _ => rfl),
    (postTkInvoices_sold_out_iff (envWith (nodeWithHash 1)) (fun _ => none)).2
      (fun _ _ _ => rfl)⟩,
   fun h => absurd
    ((postTkInvoices_sold_out_iff (envWith (nodeWithHash 1)) fsTwoTickets).1.mp h 1
      (by decide) (by decide)) (by decide)⟩

/-- C4: in every file system where slot `i` is the lowest-numbered present one
of `files/tickets/ticket1.txt` .. `ticket20.txt`, for every run of the ticket
sale (not interleaved with another) that answers 200 with an invoice of payment
hash `h`: afterwards `files/hashes/<h>.txt` holds exactly the content slot `i`
held before, slot `i` is no longer present, and every other ticket slot, every
binding file of another hash, and indeed every other path, is unchanged. -/
theorem postTkInvoices_moves_lowest (env : TkEnv) (fs : FS) (i : Nat) (inv : Invoice)
    (hi1 : 1 ≤ i) (hi : i ≤ 20) (hpres : fs (ticketPath i) ≠ none)
    (hlow : ∀ k, 1 ≤ k → k < i → fs (ticketPath k) = none)
    (h200 : (postTkInvoices env fs).outcome = .respond ⟨200, .invoice inv⟩) :
    (postTkInvoices env fs).fs (hashPath inv.PaymentHash) = fs (ticketPath i) ∧
    (postTkInvoices env fs).fs (ticketPath i) = none ∧
    (∀ j, 1 ≤ j → j ≤ 20 → j ≠ i →
      (postTkInvoices env fs).fs (ticketPath j) = fs (ticketPath j)) ∧
    (∀ h, h ≠ inv.PaymentHash → (postTkInvoices env fs).fs (hashPath h) = fs (hashPath h)) ∧
    (∀ p, p ≠ ticketPath i → p ≠ hashPath inv.PaymentHash →
      (postTkInvoices env fs).fs p = fs p) := by
  obtain ⟨p, content, hscan, hfile, hinv, hdir⟩ := postTkInvoices_200 env fs inv h200
  have hp : p = ticketPath i := by
    have := scanTickets_eq_of_lowest fs i hi1 hi hpres hlow
    rw [hscan] at this
    exact Option.some.inj this
  subst hp
  have hfs := (postTkInvoices_sale env fs _ content inv hscan hfile hinv hdir).2
  have hframe : ∀ q, q ≠ ticketPath i → q ≠ hashPath inv.PaymentHash →
      (postTkInvoices env fs).fs q = fs q := by
    intro q h1 h2
    rw [hfs]
    simp [h1, h2]
  refine ⟨?_, ?_, ?_, ?_, hframe⟩
  · rw [hfs, hfile]
    simp
  · rw [hfs]
    simp [ticketPath_ne_hashPath]
  · intro j hj1 hj hne
    apply hframe
    · intro e
      exact hne (ticketPath_inj hj1 hj hi1 hi e)
    · exact ticketPath_ne_hashPath j _
  · intro h hne
    apply hframe
    · exact fun e => ticketPath_ne_hashPath i h e.symm
    · exact fun e => hne (hashPath_injective _ _ e)

/-- C4, at a concrete input: slots 1 and 2 hold tickets, the sale moves the
content of slot 1 to the binding of the new hash and leaves slot 2 alone. -/
theorem postTkInvoices_moves_lowest_witness :
    (postTkInvoices (envWith (nodeWithHash 1)) fsTwoTickets).fs (hashPath (hashOf 1))
      = some "TICKET-ONE" ∧
    (postTkInvoices (envWith (nodeWithHash 1)) fsTwoTickets).fs (ticketPath 1) = none ∧
    (postTkInvoices (envWith (nodeWithHash 1)) fsTwoTickets).fs (ticketPath 2)
      = some "TICKET-TWO" :=
  have h := postTkInvoices_moves_lowest (envWith (nodeWithHash 1)) fsTwoTickets 1
    ⟨hashOf 1, "lnbc1", false⟩ (by decide) (by decide) (by decide)
    (fun k h1 h2 => absurd h1 (by omega)) (by decide)
  ⟨h.1, h.2.1, h.2.2.1 2 (by decide) (by decide) (by decide)⟩

/-- C2, as the claim states it, fails: the binding file of the hash `0707..07`
exists and holds an earlier ticket; a sale whose new invoice has that hash does
not fail at the bind step, it answers 200, and the binding now holds the
ticket of slot 3: the earlier content is overwritten. -/
theorem existing_binding_overwritten :
    fsBound (hashPath (hashOf 7)) = some "TICKET-SOLD-EARLIER" ∧
    (postTkInvoices (envWith (nodeWithHash 7)) fsBound).outcome
      = .respond ⟨200, .invoice ⟨hashOf 7, "lnbc1", false⟩⟩ ∧
    (postTkInvoices (envWith (nodeWithHash 7)) fsBound).fs (hashPath (hashOf 7))
      = some "TICKET-THREE" := by
  decide

/-- C2, amended: in every file system where a binding file
`files/hashes/<h>.txt` already exists, a ticket sale whose newly created
invoice has payment hash `h` does not fail at the bind step: it answers 200
with the invoice, the binding of `h` afterwards holds the content of the
claimed slot (the lowest-numbered present one), whatever it held before, and
the claimed slot is gone. -/
theorem postTkInvoices_replaces_binding (env : TkEnv) (fs : FS) (i : Nat) (inv : Invoice)
    (old ticket : String)
    (hi1 : 1 ≤ i) (hi : i ≤ 20) (hticket : fs (ticketPath i) = some ticket)
    (hlow : ∀ k, 1 ≤ k → k < i → fs (ticketPath k) = none)
    (hinv : invoiceOf env = some inv)
    (hold : fs (hashPath inv.PaymentHash) = some old) :
    (postTkInvoices env fs).outcome = .respond ⟨200, .invoice inv⟩ ∧
    (postTkInvoices env fs).fs (hashPath inv.PaymentHash) = some ticket ∧
    (postTkInvoices env fs).fs (ticketPath i) = none ∧
    (old ≠ ticket →
      (postTkInvoices env fs).fs (hashPath inv.PaymentHash) ≠ fs (hashPath inv.PaymentHash)) := by
  have hscan := scanTickets_eq_of_lowest fs i hi1 hi (by rw [hticket]; simp) hlow
  obtain ⟨hout, hfs⟩ := postTkInvoices_sale env fs _ ticket inv hscan hticket hinv
    (Or.inl (by simp [statOk, hold]))
  refine ⟨hout, by rw [hfs]; simp, by rw [hfs]; simp [ticketPath_ne_hashPath], ?_⟩
  intro hne
  rw [hfs, hold]
  simpa using Ne.symm hne

/-- C2 amended, at a concrete input. -/
theorem postTkInvoices_replaces_binding_witness :
    (postTkInvoices (envWith (nodeWithHash 7)) fsBound).outcome
      = .respond ⟨200, .invoice ⟨hashOf 7, "lnbc1", false⟩⟩ ∧
    (postTkInvoices (envWith (nodeWithHash 7)) fsBound).fs (hashPath (hashOf 7))
      = some "TICKET-THREE" ∧
    (postTkInvoices (envWith (nodeWithHash 7)) fsBound).fs (ticketPath 3) = none ∧
    ("TICKET-SOLD-EARLIER" ≠ "TICKET-THREE" →
      (postTkInvoices (envWith (nodeWithHash 7)) fsBound).fs (hashPath (hashOf 7))
        ≠ fsBound (hashPath (hashOf 7))) :=
  postTkInvoices_replaces_binding (envWith (nodeWithHash 7)) fsBound 3
    ⟨hashOf 7, "lnbc1", false⟩ "TICKET-SOLD-EARLIER" "TICKET-THREE" (by decide) (by decide)
    (by decide) (by decide) (by rfl) (by decide)

/-! ## Ticket sales in sequence -/

theorem log2Fuel_spec : ∀ (fuel n : Nat), n ≤ fuel → 0 < n →
    2 ^ log2Fuel fuel n ≤ n ∧ n < 2 ^ (log2Fuel fuel n + 1) := by
  intro fuel
  induction fuel with
  | zero => intro n h1 h2; omega
  | succ fuel ih =>
    intro n h1 h2
    rw [log2Fuel]
    by_cases h : n < 2
    · simp only [h, if_true]
      constructor <;> simp <;> omega
    · simp only [h, if_false]
      obtain ⟨ih1, ih2⟩ := ih (n / 2) (by omega) (by omega)
      rw [pow_succ] at ih2
      constructor
      · rw [pow_succ]; omega
      · rw [pow_succ, pow_succ]; omega

theorem ilog2_spec (n : Nat) (h : 0 < n) : 2 ^ ilog2 n ≤ n ∧ n < 2 ^ (ilog2 n + 1) :=
  log2Fuel_spec n n (le_refl _) h

/-- A quotient below `2 ^ 53` has a binary exponent of at most 52. -/
theorem binExp_le (p d : Nat) (hp : 0 < p) (hd : 0 < d) (h : p < 2 ^ 53 * d) :
    binExp p d ≤ 52 := by
  obtain ⟨hp1, _⟩ := ilog2_spec p hp
  obtain ⟨_, hd2⟩ := ilog2_spec d hd
  unfold binExp
  simp only
  by_contra hcon
  rw [not_le] at hcon
  split at hcon
  · rename_i hk0
    split at hcon
    · rename_i htest
      have hk : 53 ≤ ((ilog2 p : Int) - (ilog2 d : Int)).toNat := by omega
      have : 2 ^ 53 ≤ 2 ^ ((ilog2 p : Int) - (ilog2 d : Int)).toNat :=
        Nat.pow_le_pow_right (by norm_num) hk
      have : d * 2 ^ 53 ≤ p := le_trans (Nat.mul_le_mul_left d this) htest
      omega
    · have hk : ilog2 d + 1 + 53 ≤ ilog2 p := by omega
      have h1 : 2 ^ (ilog2 d + 1 + 53) ≤ 2 ^ ilog2 p := Nat.pow_le_pow_right (by norm_num) hk
      have h2 : d * 2 ^ 53 < 2 ^ (ilog2 d + 1) * 2 ^ 53 :=
        Nat.mul_lt_mul_of_pos_right hd2 (by positivity)
      rw [← pow_add] at h2
      omega
  · split at hcon <;> omega

theorem roundHalfEven_cases (p d : Nat) :
    roundHalfEven p d = p / d ∨ (roundHalfEven p d = p / d + 1 ∧ d ≤ 2 * (p % d)) := by
  unfold roundHalfEven
  simp only
  split
  · exact Or.inl rfl
  · rename_i h1
    split
    · exact Or.inr ⟨rfl, by omega⟩
    · split
      · exact Or.inl rfl
      · exact Or.inr ⟨rfl, by omega⟩

theorem roundHalfEven_exact (p d : Nat) (hd : 0 < d) (h : p % d = 0) :
    roundHalfEven p d = p / d := by
  unfold roundHalfEven
  simp [h, hd]

/-- Scaling by `x`, rounding to nearest and dropping the scaled fraction again
lands between the floor of `p / d` and the nearest integer to it. -/
theorem scaled_round_bounds (p d x : Nat) (hd : 0 < d) (hx : 0 < x) :
    p / d ≤ roundHalfEven (p * x) d / x ∧
    roundHalfEven (p * x) d / x ≤ nearestInt p d ∧
    (d ∣ p → roundHalfEven (p * x) d / x = p / d) := by
  have hfloor : p * x / d / x = p / d := by
    rw [Nat.div_div_eq_div_mul, Nat.mul_div_mul_right _ _ hx]
  refine ⟨?_, ?_, ?_⟩
  · rw [← hfloor]
    apply Nat.div_le_div_right
    rcases roundHalfEven_cases (p * x) d with h | ⟨h, _⟩ <;> rw [h]
    omega
  · unfold nearestInt
    rw [Nat.le_div_iff_mul_le (by omega)]
    set v := roundHalfEven (p * x) d / x with hv
    have hvx : v * x ≤ roundHalfEven (p * x) d := Nat.div_mul_le_self _ _
    have hdm := Nat.div_add_mod (p * x) d
    have hqd : d * (p * x / d) ≤ p * x := by omega
    rcases roundHalfEven_cases (p * x) d with h | ⟨h, hr⟩
    · rw [h] at hvx
      have h1 : d * (v * x) ≤ p * x := le_trans (Nat.mul_le_mul_left d hvx) hqd
      have h2 : d * v ≤ p := by
        have : (d * v) * x ≤ p * x := by rw [Nat.mul_assoc]; exact h1
        exact Nat.le_of_mul_le_mul_right this hx
      nlinarith
    · rw [h] at hvx
      by_contra hcon
      rw [not_le] at hcon
      have h3 : d * (v * x) ≤ d * (p * x / d) + d := by
        have := Nat.mul_le_mul_left d hvx
        rw [Nat.mul_add, Nat.mul_one] at this
        exact this
      have h4 : 2 * (d * (v * x)) ≤ 2 * (p * x) + d := by omega
      have h5 : (2 * p + d + 1) * x ≤ (v * (2 * d)) * x :=
        Nat.mul_le_mul_right x hcon
      nlinarith
  · intro hdvd
    have hmod : p * x % d = 0 := by
      obtain ⟨c, hc⟩ := hdvd
      rw [hc, Nat.mul_assoc]
      exact Nat.mul_mod_right d (c * x)
    rw [roundHalfEven_exact _ _ hd hmod, hfloor]

/-- The value the handler computes from a positive finite price whose quotient
is below `2 ^ 53`. -/
theorem ticketValue_eq (m : Nat) (e : Int) (hm : 0 < m)
    (hq : quotNum e < 2 ^ 53 * quotDen m e) :
    ∃ x : Nat, 0 < x ∧ ticketValue (.fin false m e)
      = some ((roundHalfEven (quotNum e * x) (quotDen m e) / x : Nat) : Int) ∧
      roundHalfEven (quotNum e * x) (quotDen m e) / x < 2 ^ 63 := by
  have hP : 0 < quotNum e := by
    unfold quotNum
    split <;> positivity
  have hD : 0 < quotDen m e := by
    unfold quotDen
    split <;> positivity
  have hk := binExp_le _ _ hP hD hq
  have hj : 0 ≤ min (52 - binExp (quotNum e) (quotDen m e)) 1074 := by omega
  have hdiv : divConst (10 * 100000000) (.fin false m e)
      = roundF64 false (quotNum e) (quotDen m e) := by
    unfold divConst quotNum quotDen
    simp only [Nat.pos_iff_ne_zero.mp hm, if_false]
    split <;> rfl
  set x := 2 ^ (min (52 - binExp (quotNum e) (quotDen m e)) 1074).toNat with hx
  have hxpos : 0 < x := by positivity
  have hlt : roundHalfEven (quotNum e * x) (quotDen m e) / x < 2 ^ 63 := by
    have h1 := (scaled_round_bounds (quotNum e) (quotDen m e) x hD hxpos).2.1
    have h2 : nearestInt (quotNum e) (quotDen m e) ≤ 2 ^ 53 := by
      unfold nearestInt
      apply Nat.le_of_lt_succ
      rw [Nat.div_lt_iff_lt_mul (by omega)]
      nlinarith
    have : (2 : Nat) ^ 53 < 2 ^ 63 := by norm_num
    omega
  refine ⟨x, hxpos, ?_, hlt⟩
  unfold ticketValue
  rw [hdiv]
  unfold roundF64
  simp only [Nat.pos_iff_ne_zero.mp hP, if_false, hj, if_true]
  unfold toInt64
  simp only [Bool.false_eq_true, if_false, neg_neg, ← hx]
  by_cases hz : 0 ≤ -(min (52 - binExp (quotNum e) (quotDen m e)) 1074)
  · have hz0 : min (52 - binExp (quotNum e) (quotDen m e)) 1074 = 0 := by omega
    have hx1 : x = 1 := by rw [hx, hz0]; rfl
    simp only [hz, if_true]
    rw [hz0] at *
    simp only [neg_zero, Int.toNat_zero, pow_zero, Nat.mul_one, Nat.div_one] at *
    rw [hx1] at hlt ⊢
    simp only [Nat.mul_one, Nat.div_one] at hlt ⊢
    have hr : -(2 ^ 63 : Int) ≤ (roundHalfEven (quotNum e) (quotDen m e) : Int) ∧
        (roundHalfEven (quotNum e) (quotDen m e) : Int) < 2 ^ 63 := by
      constructor
      · have : (0 : Int) ≤ (roundHalfEven (quotNum e) (quotDen m e) : Int) :=
          Int.natCast_nonneg _
        omega
      · exact_mod_cast hlt
    rw [if_pos hr]
  · simp only [hz, if_false]
    have hr : -(2 ^ 63 : Int) ≤ ((roundHalfEven (quotNum e * x) (quotDen m e) / x : Nat) : Int) ∧
        ((roundHalfEven (quotNum e * x) (quotDen m e) / x : Nat) : Int) < 2 ^ 63 := by
      constructor
      · have : (0 : Int) ≤ ((roundHalfEven (quotNum e * x) (quotDen m e) / x : Nat) : Int) :=
          Int.natCast_nonneg _
        omega
      · exact_mod_cast hlt
    rw [if_pos hr]

/-- The one RPC of a ticket sale that gets as far as the invoice creation. -/
theorem postTkInvoices_rpcs (env : TkEnv) (fs : FS) (iprice : F64) (p : String)
    (hscan : scanTickets fs = some p) (hbind : env.bindOk = true)
    (hprice : env.iprice = .price iprice) :
    (postTkInvoices env fs).rpcs
      = [RPC.addInvoice "Ticket Sale" none ((ticketValue iprice).getD env.int64Undefined)] := by
  unfold postTkInvoices tkScan tkCreateInvoice AddInvoice
  simp only [hscan, hbind, hprice]
  cases env.lnClient.AddInvoice "Ticket Sale" none
    ((ticketValue iprice).getD env.int64Undefined) <;> simp

/-- C8, as the claim states it, fails: for a price of 60000.0 the quotient is
16666.67, the handler's value is 16666, the nearest integer is 16667. -/
theorem ticket_amount_not_rounded :
    ticketValue (.fin false 60000 0) = some 16666 ∧
    nearestInt (10 * 100000000) 60000 = 16667 ∧
    (postTkInvoices
      { bindOk := true, iprice := .price (.fin false 60000 0), lnClient := nodeWithHash 1,
        int64Undefined := 0 } fsTwoTickets).rpcs
      = [RPC.addInvoice "Ticket Sale" none 16666] := by
  decide

/-- C8, amended: for every positive finite exchange-rate input
`iprice = m * 2 ^ e` whose quotient `10 * 1e8 / iprice` is below `2 ^ 53`, a
ticket sale that finds a ticket and binds its request sends one `AddInvoice`
RPC whose sat value `v` is the float64 quotient with its fraction discarded
(truncated, not rounded to nearest): `v` is at least the floor of the exact
quotient, at most the nearest integer to it, and equal to the quotient when
that is an integer. -/
theorem ticket_amount_truncated (env : TkEnv) (fs : FS) (p : String) (m : Nat) (e : Int)
    (hscan : scanTickets fs = some p) (hbind : env.bindOk = true)
    (hprice : env.iprice = .price (.fin false m e))
    (hm : 0 < m) (hq : quotNum e < 2 ^ 53 * quotDen m e) :
    ∃ v : Nat, ticketValue (.fin false m e) = some (v : Int) ∧
      (postTkInvoices env fs).rpcs = [RPC.addInvoice "Ticket Sale" none (v : Int)] ∧
      quotNum e / quotDen m e ≤ v ∧
      v ≤ nearestInt (quotNum e) (quotDen m e) ∧
      (quotDen m e ∣ quotNum e → v = quotNum e / quotDen m e) := by
  obtain ⟨x, hx, hv, _⟩ := ticketValue_eq m e hm hq
  have hD : 0 < quotDen m e := by
    unfold quotDen
    split <;> positivity
  obtain ⟨h1, h2, h3⟩ := scaled_round_bounds (quotNum e) (quotDen m e) x hD hx
  refine ⟨_, hv, ?_, h1, h2, h3⟩
  rw [postTkInvoices_rpcs env fs _ p hscan hbind hprice, hv]
  rfl

/-- C8 amended, at the price 50000.0: the value is exactly 20000, the exact
quotient. -/
theorem ticket_amount_truncated_witness :
    ticketValue (.fin false 50000 0) = some 20000 ∧
    quotNum 0 / quotDen 50000 0 = 20000 ∧ nearestInt (quotNum 0) (quotDen 50000 0) = 20000 ∧
    ∃ v : Nat, ticketValue (.fin false 50000 0) = some (v : Int) ∧
      (postTkInvoices (envWith (nodeWithHash 1)) fsTwoTickets).rpcs
        = [RPC.addInvoice "Ticket Sale" none (v : Int)] ∧
      quotNum 0 / quotDen 50000 0 ≤ v ∧
      v ≤ nearestInt (quotNum 0) (quotDen 50000 0) ∧
      (quotDen 50000 0 ∣ quotNum 0 → v = quotNum 0 / quotDen 50000 0) :=
  ⟨by decide, by decide, by decide,
   ticket_amount_truncated (envWith (nodeWithHash 1)) fsTwoTickets (ticketPath 1) 50000 0
    (by decide) (by rfl) (by rfl) (by decide) (by decide)⟩

/-! ## Ticket sales interleaved -/

/-- Without the directory `files/hashes` the rename fails and the sale ends the
process. -/
theorem sale_without_hashes_dir_exits :
    presentSlots fsNoHashesDir = [1, 2] ∧
    (postTkInvoices (envWith (nodeWithHash 1)) fsNoHashesDir).outcome = .fatal ∧
    (postTkInvoices (envWith (nodeWithHash 1)) fsNoHashesDir).fs (ticketPath 1)
      = some "TICKET-ONE" := by
  decide

theorem runSchedule_succ (envs : List TkEnv) (n : Nat) (s : Sys) :
    runSchedule envs (List.replicate (n + 1) 0) s
      = runSchedule envs (List.replicate n 0) (step envs s 0) := by
  simp [runSchedule, List.replicate_succ]

theorem step_solo (env : TkEnv) (fs : FS) (st : ReqState) :
    step [env] ⟨fs, [st], true⟩ 0
      = ⟨(stepReq env fs st).2, [(stepReq env fs st).1],
          decide ((stepReq env fs st).1 ≠ .finished .fatal)⟩ := by
  simp [step]

theorem solo_finished (env : TkEnv) : ∀ (n : Nat) (fs : FS) (out : Outcome) (a : Bool),
    (runSchedule [env] (List.replicate n 0) ⟨fs, [.finished out], a⟩).reqs = [.finished out] ∧
    (runSchedule [env] (List.replicate n 0) ⟨fs, [.finished out], a⟩).fs = fs := by
  intro n
  induction n with
  | zero => intro fs out a; simp [runSchedule]
  | succ n ih =>
    intro fs out a
    rw [runSchedule_succ]
    cases a
    · have : step [env] ⟨fs, [.finished out], false⟩ 0 = ⟨fs, [.finished out], false⟩ := by
        simp [step]
      rw [this]
      exact ih fs out false
    · rw [step_solo]
      simp only [stepReq]
      exact ih fs out _

theorem solo_answering (env : TkEnv) (n : Nat) (hn : 1 ≤ n) (fs : FS) (r : Response) :
    (runSchedule [env] (List.replicate n 0) ⟨fs, [.answering r], true⟩).reqs
      = [.finished (.respond r)] ∧
    (runSchedule [env] (List.replicate n 0) ⟨fs, [.answering r], true⟩).fs = fs := by
  obtain ⟨m, rfl⟩ : ∃ m, n = m + 1 := ⟨n - 1, by omega⟩
  rw [runSchedule_succ, step_solo]
  simp only [stepReq]
  exact solo_finished env m fs _ _

theorem solo_invoiced (env : TkEnv) (n : Nat) (hn : 2 ≤ n) (fs : FS) (p : String)
    (inv : Invoice) :
    (runSchedule [env] (List.replicate n 0) ⟨fs, [.invoiced p inv], true⟩).reqs
      = [.finished (tkBind fs p inv).1] ∧
    (runSchedule [env] (List.replicate n 0) ⟨fs, [.invoiced p inv], true⟩).fs
      = (tkBind fs p inv).2 := by
  obtain ⟨m, rfl⟩ : ∃ m, n = m + 1 := ⟨n - 1, by omega⟩
  rw [runSchedule_succ, step_solo]
  cases hr : Rename fs p (hashPath inv.PaymentHash) with
  | error e =>
    simp only [stepReq, tkBind, hr]
    exact solo_finished env m fs _ _
  | ok fs1 =>
    simp only [stepReq, tkBind, hr]
    have := solo_answering env m (by omega) fs1 ⟨200, .invoice inv⟩
    simpa using this

theorem solo_scanned (env : TkEnv) (n : Nat) (hn : 3 ≤ n) (fs : FS) (p : String)
    (hscan : scanTickets fs = some p) :
    (runSchedule [env] (List.replicate n 0) ⟨fs, [.scanned p], true⟩).reqs
      = [.finished (postTkInvoices env fs).outcome] ∧
    (runSchedule [env] (List.replicate n 0) ⟨fs, [.scanned p], true⟩).fs
      = (postTkInvoices env fs).fs := by
  obtain ⟨m, rfl⟩ : ∃ m, n = m + 1 := ⟨n - 1, by omega⟩
  rw [runSchedule_succ, step_solo]
  unfold postTkInvoices tkScan
  simp only [hscan]
  rcases hc : tkCreateInvoice env with ⟨(_ | r) | inv, rpcs⟩
  · simp only [stepReq, hc]
    exact solo_finished env m fs _ _
  · simp only [stepReq, hc]
    have := solo_answering env m (by omega) fs r
    simpa using this
  · simp only [stepReq, hc]
    have := solo_invoiced env m (by omega) fs p inv
    simpa using this

theorem solo_scanning (env : TkEnv) (fs : FS) : ∀ (fuel i n : Nat), i + fuel = 20 → 1 ≤ i →
    fuel + 4 ≤ n → (∀ k, 1 ≤ k → k < i → fs (ticketPath k) = none) →
    (runSchedule [env] (List.replicate n 0) ⟨fs, [.scanning i], true⟩).reqs
      = [.finished (postTkInvoices env fs).outcome] ∧
    (runSchedule [env] (List.replicate n 0) ⟨fs, [.scanning i], true⟩).fs
      = (postTkInvoices env fs).fs := by
  intro fuel
  induction fuel with
  | zero =>
    intro i n hi h1 hn hlow
    have : i = 20 := by omega
    subst this
    obtain ⟨m, rfl⟩ : ∃ m, n = m + 1 := ⟨n - 1, by omega⟩
    rw [runSchedule_succ, step_solo]
    cases hs : statOk fs (ticketPath 20)
    · have hnone : scanTickets fs = none := by
        rw [scanTickets_none]
        intro j hj1 hj
        rcases Nat.eq_or_lt_of_le hj with e | l
        · subst e; exact statOk_eq_false.mp hs
        · exact hlow j hj1 l
      have hpost : postTkInvoices env fs
          = ⟨.respond ⟨500, .text "No ticket available"⟩, fs, []⟩ := by
        simp [postTkInvoices, tkScan, hnone]
      simp only [stepReq, hs, Bool.false_eq_true, if_false, if_true, Nat.lt_add_one, hpost]
      have := solo_answering env m (by omega) fs ⟨500, .text "No ticket available"⟩
      simpa using this
    · have hscan := scanTickets_eq_of_lowest fs 20 (by norm_num) (le_refl _)
        (by intro hn; rw [← statOk_eq_false, hs] at hn; cases hn) hlow
      simp only [stepReq, hs, if_true, Nat.lt_add_one]
      have := solo_scanned env m (by omega) fs _ hscan
      simpa using this
  | succ fuel ih =>
    intro i n hi h1 hn hlow
    obtain ⟨m, rfl⟩ : ∃ m, n = m + 1 := ⟨n - 1, by omega⟩
    rw [runSchedule_succ, step_solo]
    have hlt : i < 21 := by omega
    have hne : i ≠ 20 := by omega
    cases hs : statOk fs (ticketPath i)
    · simp only [stepReq, hlt, hs, hne, Bool.false_eq_true, if_false, if_true]
      have := ih (i + 1) m (by omega) (by omega) (by omega) (by
        intro k hk1 hk
        rcases Nat.eq_or_lt_of_le (Nat.le_of_lt_succ hk) with e | l
        · subst e; exact statOk_eq_false.mp hs
        · exact hlow k hk1 l)
      simpa using this
    · have hscan := scanTickets_eq_of_lowest fs i h1 (by omega)
        (by intro hn; rw [← statOk_eq_false, hs] at hn; cases hn) hlow
      simp only [stepReq, hlt, hs, if_true]
      have := solo_scanned env m (by omega) fs _ hscan
      simpa using this

/-- A request that takes all its steps with no other request in between (at
most 20 `os.Stat`, the invoice creation, the rename and the response) ends as
one run of the handler does. -/
theorem runSchedule_alone (env : TkEnv) (fs : FS) :
    (runSchedule [env] (List.replicate 23 0) (initSys [env] fs)).reqs
      = [.finished (postTkInvoices env fs).outcome] ∧
    (runSchedule [env] (List.replicate 23 0) (initSys [env] fs)).fs
      = (postTkInvoices env fs).fs :=
  solo_scanning env fs 19 1 23 (by norm_num) (le_refl _) (by norm_num)
    (fun k h1 h2 => absurd h1 (by omega))

/-! ## Node failures in the other handlers -/

/-- The four other handlers that call the node answer 500 when the RPC fails;
the ticket sale then leaves the ticket in its slot. -/
theorem other_handlers_500_on_node_error (c : LightningClient) (fs : FS) :
    (∀ i e, c.AddInvoice i.Memo none i.Value = .error e →
      (postInvoices c fs (.ok i)).outcome = .respond ⟨500, .text "Error adding invoice"⟩) ∧
    (∀ s bs e, DecodeString s = .ok bs → c.LookupInvoice bs s = .error e →
      (getInvoice c fs s).outcome = .respond ⟨500, .text "Error fetching invoice"⟩ ∧
      (getTkInvoice c fs s).outcome = .respond ⟨500, .text "Error fetching invoice"⟩) ∧
    (∀ (env : TkEnv) p iprice e, env.lnClient = c → scanTickets fs = some p →
      env.bindOk = true → env.iprice = .price iprice →
      c.AddInvoice "Ticket Sale" none ((ticketValue iprice).getD env.int64Undefined) = .error e →
      (postTkInvoices env fs).outcome = .respond ⟨500, .text "Error adding invoice"⟩ ∧
      (postTkInvoices env fs).fs = fs) := by
  refine ⟨?_, ?_, ?_⟩
  · intro i e h
    simp [postInvoices, AddInvoice, h]
  · intro s bs e hd hl
    simp [getInvoice, getTkInvoice, GetInvoice, GetTkInvoice, hd, hl]
  · intro env p iprice e hc hscan hb hp herr
    subst hc
    simp [postTkInvoices, tkScan, hscan, tkCreateInvoice, hb, hp, AddInvoice, herr]

/-- The four other handlers at a node that is down. -/
theorem other_handlers_500_on_node_error_witness :
    (postInvoices nodeDown fsTwoTickets (.ok ⟨1000, "coffee"⟩)).outcome
      = .respond ⟨500, .text "Error adding invoice"⟩ ∧
    ((getInvoice nodeDown fsTwoTickets (hashOf 7)).outcome
        = .respond ⟨500, .text "Error fetching invoice"⟩ ∧
      (getTkInvoice nodeDown fsTwoTickets (hashOf 7)).outcome
        = .respond ⟨500, .text "Error fetching invoice"⟩) ∧
    ((postTkInvoices (envWith nodeDown) fsTwoTickets).outcome
        = .respond ⟨500, .text "Error adding invoice"⟩ ∧
      (postTkInvoices (envWith nodeDown) fsTwoTickets).fs = fsTwoTickets) :=
  have h := other_handlers_500_on_node_error nodeDown fsTwoTickets
  ⟨h.1 ⟨1000, "coffee"⟩ "unavailable" (by rfl),
   h.2.1 (hashOf 7) (List.replicate 32 7) "unavailable" (by rfl) (by rfl),
   h.2.2 (envWith nodeDown) (ticketPath 1) (.fin false 50000 0) "unavailable" (by rfl)
    (by decide) (by rfl) (by rfl) (by rfl)⟩

/-! ## The ticket of a settled invoice -/

/-- When the lookup reports `settled = true`, `GetTkInvoice` returns the content
of the binding file of the payment hash the node reported, and the text
"Not available." when there is no such file. -/
theorem getTkInvoice_settled_ticket (c : LightningClient) (fs : FS)
    (paymentHashStr : String) (plainHash : List Nat) (result : LookupResponse)
    (hdec : DecodeString paymentHashStr = .ok plainHash)
    (hlook : c.LookupInvoice plainHash paymentHashStr = .ok result)
    (hsettled : result.Settled = true) :
    ∃ inv : TkInvoice, (GetTkInvoice c fs paymentHashStr).1 = .ok inv ∧ inv.Settled = true ∧
      inv.Ticket = (fs (hashPath (EncodeToString result.RHash))).getD "Not available." := by
  cases hfile : fs (hashPath (EncodeToString result.RHash)) <;>
    simp [GetTkInvoice, hdec, hlook, hsettled, ReadFile, hfile]

/-- A settled invoice with a binding file, and one without. -/
theorem getTkInvoice_settled_ticket_witness :
    (∃ inv : TkInvoice, (GetTkInvoice (nodeWithInvoice true) fsBound (hashOf 7)).1 = .ok inv ∧
      inv.Settled = true ∧
      inv.Ticket = (fsBound (hashPath (EncodeToString (List.replicate 32 7)))).getD
        "Not available.") ∧
    (fsBound (hashPath (EncodeToString (List.replicate 32 7)))).getD "Not available."
      = "TICKET-SOLD-EARLIER" ∧
    (fsBound (hashPath (EncodeToString (List.replicate 32 8)))).getD "Not available."
      = "Not available." :=
  ⟨getTkInvoice_settled_ticket (nodeWithInvoice true) fsBound (hashOf 7) (List.replicate 32 7)
    ⟨List.replicate 32 7, "lnbc1", true⟩ (by rfl) (by rfl) (by rfl), by decide, by decide⟩

end Lnme
